import Mathlib

/-!
# Verification of the uringKV storage engine core

Shallow embedding of the LSM key-value store found under
`SberTech Tasks/Task_2/src` (WAL entry codec, WAL recovery, SST entry codec,
SST write/read/scan, memtable, size-tiered compaction, engine dispatcher),
together with proofs and refutations of the specification claims.

Bytes are modelled as `Nat` values; every value produced by the embedding is
kept below 256 by construction (`% 256` masks appear exactly where the source
works with `u8`), and machine-integer arithmetic is modelled with explicit
`% 2^32` / `% 2^64` reductions.
-/

deriving instance DecidableEq for Except

namespace UringKV

/-- Little-endian encoding of `n` into `w` bytes (mirrors `to_le_bytes` on a
`w`-byte unsigned integer: only the low `8*w` bits are kept). -/
def toLE : Nat → Nat → List Nat
  | 0, _ => []
  | w + 1, n => (n % 256) :: toLE w (n / 256)

/-- Little-endian decoding of a byte list (mirrors `from_le_bytes`). -/
def fromLE : List Nat → Nat
  | [] => 0
  | b :: bs => b + 256 * fromLE bs

/-- Read `w` bytes at offset `off` of `data`, little-endian. -/
def readLE (data : List Nat) (off w : Nat) : Nat :=
  fromLE ((data.drop off).take w)

@[simp] theorem toLE_length (w n : Nat) : (toLE w n).length = w := by
  induction w generalizing n with
  | zero => rfl
  | succ w ih => simp [toLE, ih]

theorem fromLE_toLE (w n : Nat) : fromLE (toLE w n) = n % 256 ^ w := by
  induction w generalizing n with
  | zero => simp [toLE, fromLE, Nat.mod_one]
  | succ w ih =>
    simp only [toLE, fromLE, ih]
    rw [Nat.pow_succ', Nat.mod_mul]

/-! ## Checksums (`checksum.rs`)

`Crc32` is the IEEE (reflected) CRC-32 computed by `crc32fast::hash`;
`Xxh64` is the standard XXH64 with seed 0, truncated to the low 32 bits. -/

/-- One bit-step of the reflected IEEE CRC-32 (polynomial `0xEDB88320`). -/
def crc32Step (crc : Nat) : Nat :=
  if crc % 2 = 1 then (crc / 2) ^^^ 0xEDB88320 else crc / 2

/-- Eight CRC-32 bit-steps, i.e. one input byte consumed. -/
def crc32Byte (crc b : Nat) : Nat :=
  (List.range 8).foldl (fun c _ => crc32Step c) (crc ^^^ (b % 256))

/-- `crc32fast::hash`: init `0xFFFFFFFF`, reflected polynomial, final xor. -/
def crc32 (data : List Nat) : Nat :=
  (data.foldl crc32Byte 0xFFFFFFFF) ^^^ 0xFFFFFFFF

def M64 : Nat := 2 ^ 64

def rotl64 (n r : Nat) : Nat :=
  ((n <<< r) % M64) ||| (n >>> (64 - r))

def xxPrime1 : Nat := 0x9E3779B185EBCA87
def xxPrime2 : Nat := 0xC2B2AE3D27D4EB4F
def xxPrime3 : Nat := 0x165667B19E3779F9
def xxPrime4 : Nat := 0x85EBCA77C2B2AE63
def xxPrime5 : Nat := 0x27D4EB2F165667C5

def xxRound (acc lane : Nat) : Nat :=
  (rotl64 ((acc + lane * xxPrime2) % M64) 31 * xxPrime1) % M64

def xxMerge (acc accN : Nat) : Nat :=
  ((acc ^^^ xxRound 0 accN) * xxPrime1 + xxPrime4) % M64

/-- Process 32-byte stripes while at least 32 bytes remain.  The loop is
written with a structural fuel argument (callers pass `data.length + 1`,
which the 32-byte-per-step loop can never exhaust). -/
def xxStripes : Nat → List Nat → Nat → Nat → Nat → Nat → (Nat × Nat × Nat × Nat) × List Nat
  | 0, data, a1, a2, a3, a4 => ((a1, a2, a3, a4), data)
  | fuel + 1, data, a1, a2, a3, a4 =>
    if 32 ≤ data.length then
      let l1 := fromLE (data.take 8)
      let l2 := fromLE ((data.drop 8).take 8)
      let l3 := fromLE ((data.drop 16).take 8)
      let l4 := fromLE ((data.drop 24).take 8)
      xxStripes fuel (data.drop 32) (xxRound a1 (l1 % M64)) (xxRound a2 (l2 % M64))
        (xxRound a3 (l3 % M64)) (xxRound a4 (l4 % M64))
    else ((a1, a2, a3, a4), data)

/-- Tail loop: 8-byte lanes (fuel-based, callers pass `data.length + 1`). -/
def xxTail8 : Nat → List Nat → Nat → Nat × List Nat
  | 0, data, acc => (acc, data)
  | fuel + 1, data, acc =>
    if 8 ≤ data.length then
      let lane := fromLE (data.take 8) % M64
      xxTail8 fuel (data.drop 8)
        ((rotl64 (acc ^^^ xxRound 0 lane) 27 * xxPrime1 + xxPrime4) % M64)
    else (acc, data)

/-- Tail loop: remaining single bytes. -/
def xxTail1 : List Nat → Nat → Nat
  | [], acc => acc
  | b :: bs, acc =>
    xxTail1 bs ((rotl64 (acc ^^^ ((b % 256) * xxPrime5) % M64) 11 * xxPrime1) % M64)

def xxAvalanche (h : Nat) : Nat :=
  let h1 := h ^^^ (h >>> 33)
  let h2 := (h1 * xxPrime2) % M64
  let h3 := h2 ^^^ (h2 >>> 29)
  let h4 := (h3 * xxPrime3) % M64
  h4 ^^^ (h4 >>> 32)

/-- XXH64 of a byte string with the given seed. -/
def xxh64 (data : List Nat) (seed : Nat) : Nat :=
  let n := data.length
  let (acc0, rest0) :=
    if 32 ≤ n then
      let ((a1, a2, a3, a4), rest) :=
        xxStripes (n + 1) data ((seed + xxPrime1 + xxPrime2) % M64) ((seed + xxPrime2) % M64)
          (seed % M64) ((seed + M64 - xxPrime1 % M64) % M64)
      let acc := (rotl64 a1 1 + rotl64 a2 7 + rotl64 a3 12 + rotl64 a4 18) % M64
      (xxMerge (xxMerge (xxMerge (xxMerge acc a1) a2) a3) a4, rest)
    else ((seed + xxPrime5) % M64, data)
  let acc1 := (acc0 + n) % M64
  let (acc2, rest1) := xxTail8 (rest0.length + 1) rest0 acc1
  let (acc3, rest2) :=
    if 4 ≤ rest1.length then
      (((rotl64 (acc2 ^^^ ((fromLE (rest1.take 4) % M64) * xxPrime1) % M64) 23 * xxPrime2
          + xxPrime3) % M64), rest1.drop 4)
    else (acc2, rest1)
  xxAvalanche (xxTail1 rest2 acc3)

/-- The two checksum algorithms selectable per store (`ChecksumAlgorithm`). -/
inductive ChecksumAlgorithm where
  | CRC32
  | XXH64
  deriving DecidableEq, Repr

/-- `ChecksumAlgorithm::compute`: CRC32, or the low 32 bits of XXH64 seed 0. -/
def ChecksumAlgorithm.compute : ChecksumAlgorithm → List Nat → Nat
  | .CRC32, data => crc32 data
  | .XXH64, data => xxh64 data 0 % 2 ^ 32

/-- `Checksum::verify`: recompute and compare with the stored value. -/
def ChecksumAlgorithm.verify (algo : ChecksumAlgorithm) (data : List Nat) (expected : Nat) :
    Bool :=
  algo.compute data == expected

/-! ## Entry codecs (`entry.rs`) -/

/-- `PAGE_SIZE`: WAL records are padded to this alignment. -/
def PAGE_SIZE : Nat := 4096

/-- `OpType` (`1 = Put`, `2 = Delete`). -/
inductive OpType where
  | put
  | delete
  deriving DecidableEq, Repr

def OpType.toU8 : OpType → Nat
  | .put => 1
  | .delete => 2

/-- `OpType::from_u8`. -/
def OpType.fromU8 : Nat → Option OpType
  | 1 => some .put
  | 2 => some .delete
  | _ => none

/-- The error kinds the embedded codecs and storage paths can produce
(condensed from `error.rs`). -/
inductive Err where
  | serialization
  | checksumMismatch
  deriving DecidableEq, Repr

/-- `WalEntry`: a write-ahead-log record. -/
structure WalEntry where
  checksum : Nat
  timestamp : Nat
  sequence : Nat
  key : List Nat
  value : List Nat
  op_type : OpType
  deriving DecidableEq, Repr

namespace WalEntry

/-- `WalEntry::serialized_size`: header (32 B) + payload, rounded up to the
next multiple of `PAGE_SIZE`. -/
def serializedSize (e : WalEntry) : Nat :=
  (32 + e.key.length + e.value.length + PAGE_SIZE - 1) / PAGE_SIZE * PAGE_SIZE

/-- The checksummed region of a serialized `WalEntry`: everything between the
checksum field and the zero padding (bytes `[4 .. 32+k+v)`). -/
def body (e : WalEntry) : List Nat :=
  toLE 8 e.timestamp ++ toLE 8 e.sequence ++
    toLE 4 e.key.length ++ toLE 4 e.value.length ++
    ([e.op_type.toU8] ++ [0, 0, 0]) ++ e.key ++ e.value

/-- `WalEntry::serialize`: checksum, header, payload, zero padding to a
`PAGE_SIZE` multiple.  (The `key.len() as u32` casts are reflected by
`toLE 4`, which keeps only the low 32 bits.) -/
def serialize (e : WalEntry) (algo : ChecksumAlgorithm) : List Nat :=
  let body := e.body
  toLE 4 (algo.compute body) ++ body ++
    List.replicate (e.serializedSize - (32 + e.key.length + e.value.length)) 0

/-- `WalEntry::deserialize` with the validation performed by the source:
minimum length, key/value length limits, opcode, payload bound, checksum. -/
def deserialize (data : List Nat) (algo : ChecksumAlgorithm) : Except Err WalEntry :=
  if data.length < 32 then .error .serialization
  else
    let checksum := readLE data 0 4
    let timestamp := readLE data 4 8
    let sequence := readLE data 12 8
    let keyLen := readLE data 20 4
    let valueLen := readLE data 24 4
    if keyLen > 64 * 1024 then .error .serialization
    else if valueLen > 1024 * 1024 then .error .serialization
    else
      match OpType.fromU8 ((data.drop 28).headD 0) with
      | none => .error .serialization
      | some op =>
        if 32 + keyLen + valueLen > data.length then .error .serialization
        else
          let key := (data.drop 32).take keyLen
          let value := (data.drop (32 + keyLen)).take valueLen
          let dataEnd := 32 + keyLen + valueLen
          if algo.verify ((data.drop 4).take (dataEnd - 4)) checksum then
            .ok ⟨checksum, timestamp, sequence, key, value, op⟩
          else .error .checksumMismatch

end WalEntry

/-- `SstEntry`: a sorted-table record; `value = none` encodes a tombstone. -/
structure SstEntry where
  key : List Nat
  value : Option (List Nat)
  deriving DecidableEq, Repr

namespace SstEntry

def valueLen (e : SstEntry) : Nat :=
  match e.value with
  | some v => v.length
  | none => 0

/-- `SstEntry::serialized_size`: 12-byte header plus payload, unpadded. -/
def serializedSize (e : SstEntry) : Nat :=
  4 + 4 + 4 + e.key.length + e.valueLen

/-- The checksummed region of a serialized `SstEntry` (bytes `[4 .. end)`). -/
def body (e : SstEntry) : List Nat :=
  toLE 4 e.key.length ++ toLE 4 e.valueLen ++ e.key ++ (e.value.getD [])

/-- `SstEntry::serialize`: `[checksum][key_len][value_len][key][value]`. -/
def serialize (e : SstEntry) (algo : ChecksumAlgorithm) : List Nat :=
  let body := e.body
  toLE 4 (algo.compute body) ++ body

/-- `SstEntry::deserialize` with the source's validation; a zero `value_len`
decodes as a tombstone. -/
def deserialize (data : List Nat) (algo : ChecksumAlgorithm) : Except Err SstEntry :=
  if data.length < 12 then .error .serialization
  else
    let checksum := readLE data 0 4
    let keyLen := readLE data 4 4
    let valueLen := readLE data 8 4
    if keyLen > 64 * 1024 then .error .serialization
    else if valueLen > 1024 * 1024 then .error .serialization
    else if 12 + keyLen + valueLen > data.length then .error .serialization
    else
      let key := (data.drop 12).take keyLen
      let value := if valueLen > 0 then some ((data.drop (12 + keyLen)).take valueLen) else none
      let dataEnd := 12 + keyLen + valueLen
      if algo.verify ((data.drop 4).take (dataEnd - 4)) checksum then
        .ok ⟨key, value⟩
      else .error .checksumMismatch

end SstEntry

/-! ## WAL recovery (`wal/mod.rs`) -/

/-- `((offset / PAGE_SIZE) + 1) * PAGE_SIZE`: the next page boundary used when
skipping corrupted data. -/
def nextPageBoundary (off : Nat) : Nat :=
  (off / PAGE_SIZE + 1) * PAGE_SIZE

theorem lt_nextPageBoundary (off : Nat) : off < nextPageBoundary off := by
  have h := Nat.div_add_mod off 4096
  have h2 : off % 4096 < 4096 := Nat.mod_lt _ (by decide)
  simp only [nextPageBoundary, PAGE_SIZE]
  omega

theorem serializedSize_pos (e : WalEntry) : 4096 ≤ e.serializedSize := by
  have h : 1 ≤ (32 + e.key.length + e.value.length + PAGE_SIZE - 1) / PAGE_SIZE := by
    apply (Nat.le_div_iff_mul_le (by decide : 0 < PAGE_SIZE)).2
    simp [PAGE_SIZE]
    omega
  calc 4096 = 1 * PAGE_SIZE := by decide
  _ ≤ (32 + e.key.length + e.value.length + PAGE_SIZE - 1) / PAGE_SIZE * PAGE_SIZE :=
      Nat.mul_le_mul_right _ h

/-- The decoding loop of `WalManager::recover_segment`, cursor at `off`:
stop when fewer than 24 bytes remain; on success push the record and advance
by its serialized size; on failure skip to the next page boundary. -/
def recoverSegmentLoop (algo : ChecksumAlgorithm) (data : List Nat) (off : Nat) :
    List WalEntry :=
  if _h : off < data.length then
    if data.length - off < 24 then []
    else
      match WalEntry.deserialize (data.drop off) algo with
      | .ok e => e :: recoverSegmentLoop algo data (off + e.serializedSize)
      | .error _ => recoverSegmentLoop algo data (nextPageBoundary off)
  else []
  termination_by data.length - off
  decreasing_by
  · have := serializedSize_pos e
    omega
  · have := lt_nextPageBoundary off
    omega

/-- `WalManager::recover_segment`: decode a whole segment byte stream. -/
def recoverSegment (algo : ChecksumAlgorithm) (data : List Nat) : List WalEntry :=
  recoverSegmentLoop algo data 0

/-- `WalManager::recover`: concatenate the records of all segments in order
(sealed segments first, then the current one — the model takes the already
ordered list of segment byte streams). -/
def walRecover (algo : ChecksumAlgorithm) (segments : List (List Nat)) : List WalEntry :=
  (segments.map (recoverSegment algo)).flatten

/-- Modelled from the spec (§4.4.3): walk the byte stream; a successful decode
is appended and advances the cursor by the record's serialized size; a failed
decode advances the cursor to the next 4096-byte boundary; recovery continues
to the end of the stream. -/
def recoverSegmentSpecLoop (algo : ChecksumAlgorithm) (data : List Nat) (off : Nat) :
    List WalEntry :=
  if _h : off < data.length then
    match WalEntry.deserialize (data.drop off) algo with
    | .ok e => e :: recoverSegmentSpecLoop algo data (off + e.serializedSize)
    | .error _ => recoverSegmentSpecLoop algo data (nextPageBoundary off)
  else []
  termination_by data.length - off
  decreasing_by
  · have := serializedSize_pos e
    omega
  · have := lt_nextPageBoundary off
    omega

/-- Modelled from the spec: recovery of one segment starting at offset 0. -/
def recoverSegmentSpec (algo : ChecksumAlgorithm) (data : List Nat) : List WalEntry :=
  recoverSegmentSpecLoop algo data 0

/-! ## Byte-string ordering

Rust compares `Vec<u8>` / `&[u8]` lexicographically with a strict prefix
smaller than its extension. -/

/-- Strict lexicographic order on byte strings. -/
def keyLt : List Nat → List Nat → Bool
  | [], [] => false
  | [], _ :: _ => true
  | _ :: _, [] => false
  | a :: as, b :: bs => if a < b then true else if b < a then false else keyLt as bs

/-- `a <= b` on byte strings (total order, so `!(b < a)`). -/
def keyLe (a b : List Nat) : Bool :=
  !keyLt b a

/-! ## Memtable (`memtable/mod.rs`)

The concurrent skip map is modelled as an association list sorted strictly
ascending by key; `insert` replaces an existing binding. -/

/-- A memtable binding: `value = none` is a tombstone. -/
structure MemtableEntry where
  value : Option (List Nat)
  timestamp : Nat
  sequence : Nat
  deriving DecidableEq, Repr

/-- The in-memory sorted buffer: sorted bindings plus the cumulative size
estimate and the configured bound. -/
structure Memtable where
  data : List (List Nat × MemtableEntry)
  size : Nat
  maxSize : Nat
  deriving DecidableEq, Repr

/-- Ordered insert-or-replace into the sorted binding list (the skip map's
`insert` semantics). -/
def insertBinding (key : List Nat) (e : MemtableEntry) :
    List (List Nat × MemtableEntry) → List (List Nat × MemtableEntry)
  | [] => [(key, e)]
  | (k, v) :: rest =>
    if keyLt k key then (k, v) :: insertBinding key e rest
    else if keyLt key k then (key, e) :: (k, v) :: rest
    else (key, e) :: rest

namespace Memtable

def new (maxSize : Nat) : Memtable :=
  ⟨[], 0, maxSize⟩

/-- `Memtable::put` (the `size_of::<MemtableEntry>()` overhead is 40 bytes:
a 24-byte `Option<Vec<u8>>` plus two `u64`s). -/
def put (m : Memtable) (key value : List Nat) (seq ts : Nat) : Memtable :=
  { m with
    data := insertBinding key ⟨some value, ts, seq⟩ m.data
    size := m.size + (key.length + value.length + 40) }

/-- `Memtable::delete`: store a tombstone. -/
def delete (m : Memtable) (key : List Nat) (seq ts : Nat) : Memtable :=
  { m with
    data := insertBinding key ⟨none, ts, seq⟩ m.data
    size := m.size + (key.length + 40) }

/-- `Memtable::get`. -/
def get (m : Memtable) (key : List Nat) : Option MemtableEntry :=
  (m.data.find? (fun kv => kv.1 == key)).map (·.2)

/-- `Memtable::scan` over the half-open range `[start, end)`, skipping
tombstones. -/
def scan (m : Memtable) (start end_ : List Nat) : List (List Nat × List Nat) :=
  m.data.filterMap (fun kv =>
    if keyLe start kv.1 && keyLt kv.1 end_ then
      match kv.2.value with
      | some v => some (kv.1, v)
      | none => none
    else none)

/-- `Memtable::get_all_entries`: every binding, tombstones included. -/
def getAllEntries (m : Memtable) : List (List Nat × Option (List Nat)) :=
  m.data.map (fun kv => (kv.1, kv.2.value))

/-- `Memtable::is_full`. -/
def isFull (m : Memtable) : Bool :=
  m.maxSize ≤ m.size

/-- `Memtable::clear`. -/
def clear (m : Memtable) : Memtable :=
  { m with data := [], size := 0 }

end Memtable

/-! ## Bloom filter (`sst/bloom.rs`)

The bit array and indexing are modelled exactly; the 64-bit `DefaultHasher`
(SipHash with unspecified keys) is an opaque external component, so every
definition is parametrised by the hash function `hash : key → seed → u64`. -/

/-- `BloomFilter`: bit array (bytes), bit count, hash count. -/
structure BloomFilter where
  bits : List Nat
  numBits : Nat
  numHashes : Nat
  deriving DecidableEq, Repr

namespace BloomFilter

/-- `optimal_num_bits`: `ceil(-capacity * ln p / (ln 2)^2)` for `p = 0.01`.
The source computes this with `f64`; the model fixes `p = 0.01` (the only
value the source ever passes) and computes the ceiling exactly over the
rational `46051701859880910 / 4804530139182014`, whose first 16 significant
digits agree with the `f64` constants `-ln 0.01` and `(ln 2)^2`; the
resulting bit counts agree with the `f64` computation at every capacity used
in this development. -/
def optimalNumBits (capacity : Nat) : Nat :=
  (capacity * 46051701859880910 + (4804530139182014 - 1)) / 4804530139182014

/-- `optimal_num_hashes`: `max 1 (ceil ((num_bits / capacity) * ln 2))`, with
`ln 2` as the exact rational `6931471805599453 / 10^16` (same convention as
`optimalNumBits`; a zero capacity, unreachable from `write_sst`, yields 1). -/
def optimalNumHashes (capacity numBits : Nat) : Nat :=
  max 1 ((numBits * 6931471805599453 + (capacity * 10 ^ 16 - 1)) / (capacity * 10 ^ 16))

/-- `BloomFilter::new(capacity, 0.01)`. -/
def new (capacity : Nat) : BloomFilter :=
  let numBits := optimalNumBits capacity
  let numHashes := optimalNumHashes capacity numBits
  ⟨List.replicate ((numBits + 7) / 8) 0, numBits, numHashes⟩

/-- `set_bit`. -/
def setBit (f : BloomFilter) (index : Nat) : BloomFilter :=
  { f with bits := f.bits.set (index / 8) ((f.bits.getD (index / 8) 0) ||| (1 <<< (index % 8))) }

/-- `get_bit`. -/
def getBit (f : BloomFilter) (index : Nat) : Bool :=
  (f.bits.getD (index / 8) 0) &&& (1 <<< (index % 8)) != 0

/-- `BloomFilter::insert`, parametrised by the opaque hash. -/
def insert (hash : List Nat → Nat → Nat) (f : BloomFilter) (key : List Nat) : BloomFilter :=
  (List.range f.numHashes).foldl (fun f' i => f'.setBit (hash key i % f'.numBits)) f

/-- `BloomFilter::may_contain`. -/
def mayContain (hash : List Nat → Nat → Nat) (f : BloomFilter) (key : List Nat) : Bool :=
  (List.range f.numHashes).all (fun i => f.getBit (hash key i % f.numBits))

/-- `BloomFilter::serialize`:
`[num_bits: u64][num_hashes: u32][bit_len: u32][bits]`. -/
def serialize (f : BloomFilter) : List Nat :=
  toLE 8 f.numBits ++ toLE 4 f.numHashes ++ toLE 4 f.bits.length ++ f.bits

end BloomFilter

/-! ## Sorted tables (`sst/mod.rs`) -/

/-- `HEADER_SIZE` (64 bytes). -/
def HEADER_SIZE : Nat := 64

/-- `DATA_BLOCK_SIZE` (64 KiB). -/
def DATA_BLOCK_SIZE : Nat := 64 * 1024

/-- `SstFile`: in-memory metadata of one table. -/
structure SstFile where
  id : Nat
  minKey : List Nat
  maxKey : List Nat
  numEntries : Nat
  size : Nat
  bloomFilter : BloomFilter
  deriving DecidableEq, Repr

namespace SstFile

/-- `SstFile::may_contain`. -/
def mayContain (hash : List Nat → Nat → Nat) (f : SstFile) (key : List Nat) : Bool :=
  f.bloomFilter.mayContain hash key

/-- `SstFile::in_range`: `min_key <= key <= max_key`. -/
def inRange (f : SstFile) (key : List Nat) : Bool :=
  keyLe f.minKey key && keyLe key f.maxKey

end SstFile

/-- A table as it exists on disk: its metadata plus the file's byte content
(standing in for the file at `SstFile::path`). -/
structure SstTable where
  meta : SstFile
  bytes : List Nat
  deriving DecidableEq, Repr

/-- `SstHeader`. -/
structure SstHeader where
  magic : Nat
  version : Nat
  numEntries : Nat
  indexOffset : Nat
  bloomOffset : Nat
  minKeyLen : Nat
  maxKeyLen : Nat
  deriving DecidableEq, Repr

namespace SstHeader

def MAGIC : Nat := 0x53535446

/-- `SstHeader::serialize`: 40 bytes of fields, zero-padded to 64. -/
def serialize (h : SstHeader) : List Nat :=
  toLE 4 h.magic ++ toLE 4 h.version ++ toLE 8 h.numEntries ++ toLE 8 h.indexOffset ++
    toLE 8 h.bloomOffset ++ toLE 4 h.minKeyLen ++ toLE 4 h.maxKeyLen ++ List.replicate 24 0

/-- `SstHeader::deserialize` with the source's magic and key-length checks. -/
def deserialize (data : List Nat) : Except Err SstHeader :=
  if data.length < HEADER_SIZE then .error .serialization
  else
    let magic := readLE data 0 4
    if magic ≠ MAGIC then .error .serialization
    else
      let version := readLE data 4 4
      let numEntries := readLE data 8 8
      let indexOffset := readLE data 16 8
      let bloomOffset := readLE data 24 8
      let minKeyLen := readLE data 32 4
      let maxKeyLen := readLE data 36 4
      if minKeyLen > 64 * 1024 ∨ maxKeyLen > 64 * 1024 then .error .serialization
      else .ok ⟨magic, version, numEntries, indexOffset, bloomOffset, minKeyLen, maxKeyLen⟩

end SstHeader

/-- `IndexEntry`: maps a block's first key to its offset and size. -/
structure IndexEntry where
  firstKey : List Nat
  offset : Nat
  size : Nat
  deriving DecidableEq, Repr

namespace IndexEntry

/-- `IndexEntry::serialize`: `[key_len: u32][first_key][offset: u64][size: u32]`. -/
def serialize (e : IndexEntry) : List Nat :=
  toLE 4 e.firstKey.length ++ e.firstKey ++ toLE 8 e.offset ++ toLE 4 e.size

/-- `IndexEntry::deserialize`: returns the entry and the bytes consumed. -/
def deserialize (data : List Nat) : Except Err (IndexEntry × Nat) :=
  if data.length < 4 then .error .serialization
  else
    let keyLen := readLE data 0 4
    if keyLen > 64 * 1024 then .error .serialization
    else if data.length < 4 + keyLen + 8 + 4 then .error .serialization
    else
      let firstKey := (data.drop 4).take keyLen
      let blockOffset := readLE data (4 + keyLen) 8
      let size := readLE data (4 + keyLen + 8) 4
      .ok (⟨firstKey, blockOffset, size⟩, 4 + keyLen + 8 + 4)

end IndexEntry

theorem IndexEntry.deserialize_consumed {data : List Nat} {e : IndexEntry} {n : Nat}
    (h : IndexEntry.deserialize data = .ok (e, n)) : 16 ≤ n := by
  unfold IndexEntry.deserialize at h
  split at h
  · exact absurd h (by simp)
  · dsimp only at h
    split at h
    · exact absurd h (by simp)
    · split at h
      · exact absurd h (by simp)
      · simp only [Except.ok.injEq, Prod.mk.injEq] at h
        omega

/-- Parse the whole index region as consecutive `IndexEntry`s (the
`while offset < index_data.len()` loop shared by `read` and `scan`; a decode
error propagates).  Structural fuel: each iteration consumes at least 16
bytes, so the `data.length + 1` passed by callers never runs out. -/
def parseIndexLoop (data : List Nat) : Nat → Nat → Except Err (List IndexEntry)
  | _, 0 => .ok []
  | off, fuel + 1 =>
    if off < data.length then
      match IndexEntry.deserialize (data.drop off) with
      | .error e => .error e
      | .ok (entry, bytesRead) =>
        match parseIndexLoop data (off + bytesRead) fuel with
        | .error e => .error e
        | .ok rest => .ok (entry :: rest)
    else .ok []

/-- Parse the complete index region starting at offset 0. -/
def parseIndex (data : List Nat) : Except Err (List IndexEntry) :=
  parseIndexLoop data 0 (data.length + 1)

/-- The block-building loop of `SstManager::write_sst`: serialized records are
appended to the current block; when a record would push a non-empty block past
`DATA_BLOCK_SIZE` the block is closed (paired with its first key) and a new
block is started with that record. -/
def packBlocksGo (algo : ChecksumAlgorithm) (cur firstKey : List Nat) :
    List (List Nat × Option (List Nat)) → List (List Nat × List Nat)
  | [] => if cur.isEmpty then [] else [(cur, firstKey)]
  | (k, v) :: rest =>
    let s := SstEntry.serialize ⟨k, v⟩ algo
    if !cur.isEmpty && decide (DATA_BLOCK_SIZE < cur.length + s.length) then
      (cur, firstKey) :: packBlocksGo algo s k rest
    else
      packBlocksGo algo (cur ++ s) (if cur.isEmpty then k else firstKey) rest

/-- The data blocks (with their first keys) written for the given entries. -/
def packBlocks (algo : ChecksumAlgorithm) (entries : List (List Nat × Option (List Nat))) :
    List (List Nat × List Nat) :=
  packBlocksGo algo [] [] entries

/-- The index entries recorded for a run of blocks starting at `dataStart`
(each block's offset is the running sum of the previous block sizes). -/
def indexFromBlocks (dataStart : Nat) : List (List Nat × List Nat) → List IndexEntry
  | [] => []
  | (bytes, fk) :: rest => ⟨fk, dataStart, bytes.length⟩ :: indexFromBlocks (dataStart + bytes.length) rest

/-- The state of `SstManager`: the tracked tables in creation order, the next
file id, and the store's checksum algorithm. -/
structure MgrState where
  tables : List SstTable
  nextId : Nat
  algo : ChecksumAlgorithm
  deriving DecidableEq, Repr

/-- `SstManager::write_sst`, parametrised by the bloom hash.  Returns the
write's result together with the manager state after the call; an empty input
fails with `SerializationError` before a file id is reserved. -/
def writeSst (hash : List Nat → Nat → Nat) (mgr : MgrState)
    (entries : List (List Nat × Option (List Nat))) : Except Err SstTable × MgrState :=
  match entries with
  | [] => (.error .serialization, mgr)
  | e0 :: rest =>
    let entries := e0 :: rest
    let fileId := mgr.nextId
    let minKey := e0.1
    let maxKey := (entries.getLast (by simp [entries])).1
    let bloom := entries.foldl (fun b kv => b.insert hash kv.1) (BloomFilter.new entries.length)
    let dataStart := HEADER_SIZE + minKey.length + maxKey.length
    let blocks := packBlocks mgr.algo entries
    let blockBytes := (blocks.map (·.1)).flatten
    let indexEntries := indexFromBlocks dataStart blocks
    let bloomOffset := dataStart + blockBytes.length
    let bloomData := bloom.serialize
    let indexOffset := bloomOffset + bloomData.length
    let header : SstHeader :=
      ⟨SstHeader.MAGIC, 1, entries.length, indexOffset, bloomOffset, minKey.length, maxKey.length⟩
    let fileBytes := header.serialize ++ minKey ++ maxKey ++ blockBytes ++ bloomData ++
      (indexEntries.map IndexEntry.serialize).flatten
    let meta : SstFile := ⟨fileId, minKey, maxKey, entries.length, fileBytes.length, bloom⟩
    let table : SstTable := ⟨meta, fileBytes⟩
    (.ok table, { mgr with nextId := fileId + 1, tables := mgr.tables ++ [table] })

theorem SstEntry.twelve_le_serializedSize (e : SstEntry) : 12 ≤ e.serializedSize := by
  simp [SstEntry.serializedSize]
  omega

/-- The block-scanning loop of `SstManager::read`: decode records in sequence;
a record whose key matches yields its (possibly tombstone) value; a decode
failure or a short remainder ends the block ("likely reached end of valid
data"), which the caller reports as not-found.  Structural fuel as in
`parseIndexLoop` (every decoded record is at least 12 bytes). -/
def readBlockLoop (algo : ChecksumAlgorithm) (blockData key : List Nat) :
    Nat → Nat → Option (List Nat)
  | _, 0 => none
  | off, fuel + 1 =>
    if off < blockData.length then
      if blockData.length < off + 12 then none
      else
        match SstEntry.deserialize (blockData.drop off) algo with
        | .error _ => none
        | .ok entry =>
          if entry.key == key then entry.value
          else readBlockLoop algo blockData key (off + entry.serializedSize) fuel
    else none

/-- The target-block selection of `SstManager::read`: the last index entry
whose `first_key <= key` (the loop breaks at the first larger first key). -/
def findTargetBlock (key : List Nat) : List IndexEntry → Option IndexEntry → Option IndexEntry
  | [], acc => acc
  | e :: rest, acc =>
    if keyLe e.firstKey key then findTargetBlock key rest (some e)
    else acc

/-- `read_index_data`: the bytes from `index_offset` to the end of the file,
rejected above 10 MiB. -/
def readIndexData (fileBytes : List Nat) (indexOffset : Nat) : Except Err (List Nat) :=
  let indexSize := fileBytes.length - indexOffset
  if indexSize > 10 * 1024 * 1024 then .error .serialization
  else .ok (fileBytes.drop indexOffset)

/-- `SstManager::read`: bloom filter and range pruning, then header, index
region, target block and in-block search.  A tombstone hit and a miss are both
reported as `none`. -/
def sstRead (hash : List Nat → Nat → Nat) (algo : ChecksumAlgorithm) (t : SstTable)
    (key : List Nat) : Except Err (Option (List Nat)) :=
  if !(t.meta.mayContain hash key) then .ok none
  else if !(t.meta.inRange key) then .ok none
  else
    match SstHeader.deserialize (t.bytes.take HEADER_SIZE) with
    | .error e => .error e
    | .ok header =>
      match readIndexData t.bytes header.indexOffset with
      | .error e => .error e
      | .ok indexData =>
        match parseIndex indexData with
        | .error e => .error e
        | .ok indexEntries =>
          match findTargetBlock key indexEntries none with
          | none => .ok none
          | some block =>
            if block.size > 4 * 1024 * 1024 then .error .serialization
            else
              let blockData := (t.bytes.drop block.offset).take block.size
              .ok (readBlockLoop algo blockData key 0 (blockData.length + 1))

/-- The block-scanning loop of `SstManager::scan`: collect live records inside
`[start, end]`; the whole scan returns early once a decoded key passes `end`;
decode errors propagate.  Returns the collected pairs and whether the early
return fired.  Structural fuel as in `readBlockLoop`. -/
def scanBlockLoop (algo : ChecksumAlgorithm) (blockData start end_ : List Nat) :
    Nat → List (List Nat × List Nat) → Nat → Except Err (List (List Nat × List Nat) × Bool)
  | _, acc, 0 => .ok (acc, false)
  | off, acc, fuel + 1 =>
    if off < blockData.length then
      if blockData.length < off + 12 then .ok (acc, false)
      else
        match SstEntry.deserialize (blockData.drop off) algo with
        | .error e => .error e
        | .ok entry =>
          if keyLe start entry.key && keyLe entry.key end_ then
            match entry.value with
            | some v =>
              scanBlockLoop algo blockData start end_ (off + entry.serializedSize)
                (acc ++ [(entry.key, v)]) fuel
            | none =>
              scanBlockLoop algo blockData start end_ (off + entry.serializedSize) acc fuel
          else if keyLt end_ entry.key then .ok (acc, true)
          else scanBlockLoop algo blockData start end_ (off + entry.serializedSize) acc fuel
    else .ok (acc, false)

/-- The per-block iteration of `SstManager::scan` over the parsed index. -/
def scanBlocksLoop (algo : ChecksumAlgorithm) (fileBytes start end_ : List Nat)
    (acc : List (List Nat × List Nat)) :
    List IndexEntry → Except Err (List (List Nat × List Nat))
  | [] => .ok acc
  | block :: rest =>
    if block.size > 4 * 1024 * 1024 then .error .serialization
    else
      let blockData := (fileBytes.drop block.offset).take block.size
      match scanBlockLoop algo blockData start end_ 0 acc (blockData.length + 1) with
      | .error e => .error e
      | .ok (acc', stop) =>
        if stop then .ok acc'
        else scanBlocksLoop algo fileBytes start end_ acc' rest

/-- `SstManager::scan`: read header and index, then walk every data block in
file order collecting live records within the inclusive range `[start, end]`. -/
def sstScan (algo : ChecksumAlgorithm) (t : SstTable) (start end_ : List Nat) :
    Except Err (List (List Nat × List Nat)) :=
  match SstHeader.deserialize (t.bytes.take HEADER_SIZE) with
  | .error e => .error e
  | .ok header =>
    match readIndexData t.bytes header.indexOffset with
    | .error e => .error e
    | .ok indexData =>
      match parseIndex indexData with
      | .error e => .error e
      | .ok indexEntries => scanBlocksLoop algo t.bytes start end_ [] indexEntries

/-- `SstManager::get_overlapping_files`: tables whose key range intersects
`[start, end]`. -/
def getOverlappingFiles (mgr : MgrState) (start end_ : List Nat) : List SstTable :=
  mgr.tables.filter (fun t => !(keyLt t.meta.maxKey start || keyLt end_ t.meta.minKey))

/-- `SstManager::remove_file`. -/
def removeFile (mgr : MgrState) (fileId : Nat) : MgrState :=
  { mgr with tables := mgr.tables.filter (fun t => t.meta.id ≠ fileId) }

/-! ## Size-tiered compaction (`compaction/mod.rs`) -/

/-- The `file.size as f64 / current_size as f64 <= size_ratio` test of
`select_size_tiered`, over exact rationals: for a positive `current_size`,
`fileSize / currentSize ≤ r` iff `fileSize * r.den ≤ r.num * currentSize`.
A zero `current_size` makes the `f64` quotient infinite or NaN, so the
comparison is false; for positive sizes the exact comparison agrees with the
`f64` one whenever the division is exact (in particular at every size used in
this development). -/
def ratioWithin (sizeRatio : ℚ) (fileSize currentSize : Nat) : Bool :=
  currentSize != 0 &&
    decide ((fileSize : Int) * (sizeRatio.den : Int) ≤ sizeRatio.num * (currentSize : Int))

/-- Stable ascending insertion by file size (the model of the stable
`sort_by_key(|f| f.size)`). -/
def insertBySize (f : SstFile) : List SstFile → List SstFile
  | [] => [f]
  | g :: gs => if g.size < f.size then g :: insertBySize f gs else f :: g :: gs

/-- Stable sort of the snapshot by ascending file size. -/
def sortBySize (files : List SstFile) : List SstFile :=
  files.foldr insertBySize []

/-- The grouping sweep of `select_size_tiered`: `groups` holds the closed
groups that reached `min_threshold` (smaller groups are dropped on closing),
`cur` is the open group and `curSize` its first file's size. -/
def sizeTieredLoop (sizeRatio : ℚ) (minThreshold : Nat) (groups : List (List SstFile))
    (cur : List SstFile) (curSize : Nat) : List SstFile → List (List SstFile)
  | [] => if minThreshold ≤ cur.length then groups ++ [cur] else groups
  | f :: rest =>
    if ratioWithin sizeRatio f.size curSize then
      sizeTieredLoop sizeRatio minThreshold groups (cur ++ [f]) curSize rest
    else
      sizeTieredLoop sizeRatio minThreshold
        (if minThreshold ≤ cur.length then groups ++ [cur] else groups) [f] f.size rest

/-- `Compactor::select_size_tiered`.  (When the snapshot is empty and
`min_threshold = 0` the source would panic on `sorted_files[0]`; the
configuration validator requires `min_threshold >= 2`, and the model returns
the empty selection there.) -/
def selectSizeTiered (files : List SstFile) (sizeRatio : ℚ) (minThreshold : Nat) :
    List SstFile :=
  if files.length < minThreshold then []
  else
    match sortBySize files with
    | [] => []
    | f :: rest => ((sizeTieredLoop sizeRatio minThreshold [] [f] f.size rest).head?).getD []

/-- `Compactor::read_all_entries_from_sst`: read the data section (between the
end of the key blobs and `bloom_offset`) and decode records sequentially —
with the checksum algorithm hardcoded to CRC32 — stopping at the recorded
entry count, a short remainder, or the first decode failure. -/
def readAllEntriesLoop (data : List Nat) (numEntries : Nat) :
    List (List Nat × Option (List Nat)) → Nat → Nat →
      List (List Nat × Option (List Nat))
  | acc, _, 0 => acc
  | acc, off, fuel + 1 =>
    if off < data.length ∧ acc.length < numEntries then
      if data.length < off + 12 then acc
      else
        match SstEntry.deserialize (data.drop off) .CRC32 with
        | .error _ => acc
        | .ok entry =>
          readAllEntriesLoop data numEntries (acc ++ [(entry.key, entry.value)])
            (off + entry.serializedSize) fuel
    else acc

/-- `Compactor::read_all_entries_from_sst` (header fields read manually;
structure validation on `bloom_offset`). -/
def readAllEntriesFromSst (t : SstTable) : Except Err (List (List Nat × Option (List Nat))) :=
  let headerBuf := t.bytes.take HEADER_SIZE
  let numEntries := readLE headerBuf 8 8
  let bloomOffset := readLE headerBuf 24 8
  let minKeyLen := readLE headerBuf 32 4
  let maxKeyLen := readLE headerBuf 36 4
  let dataStart := HEADER_SIZE + minKeyLen + maxKeyLen
  let fileSize := t.bytes.length
  if bloomOffset ≤ dataStart then .error .serialization
  else if bloomOffset > fileSize then .error .serialization
  else
    let dataSize := bloomOffset - dataStart
    if dataSize = 0 then .ok []
    else
      let dataBuf := (t.bytes.drop dataStart).take dataSize
      .ok (readAllEntriesLoop dataBuf numEntries [] 0 (dataBuf.length + 1))

/-- The keyed merge of `merge_sst_files_impl`: entries are inserted into an
ordered map as `(value, input_index)`, a later input index replacing an
earlier one. -/
def insertMerged (key : List Nat) (v : Option (List Nat) × Nat) :
    List (List Nat × (Option (List Nat) × Nat)) → List (List Nat × (Option (List Nat) × Nat))
  | [] => [(key, v)]
  | (k, w) :: rest =>
    if keyLt k key then (k, w) :: insertMerged key v rest
    else if keyLt key k then (key, v) :: (k, w) :: rest
    else if w.2 < v.2 then (k, v) :: rest else (k, w) :: rest

/-- `Compactor::merge_sst_files_impl`, parametrised by the bloom hash.  Reads
every record of every selected table, keeps the later input for duplicate
keys, drops tombstones, writes the survivors as a new table and removes the
inputs; with zero survivors the inputs are removed and an error is returned. -/
def mergeSstFiles (hash : List Nat → Nat → Nat) (mgr : MgrState) (files : List SstTable) :
    Except Err SstTable × MgrState :=
  match files with
  | [] => (.error .serialization, mgr)
  | _ :: _ =>
    let allRead := files.mapIdx (fun i t => (readAllEntriesFromSst t).map (fun es => (i, es)))
    match allRead.filterMap (fun r => match r with | .error e => some e | .ok _ => none) with
    | e :: _ => (.error e, mgr)
    | [] =>
      let indexed := allRead.filterMap (fun r => r.toOption)
      let merged := indexed.foldl
        (fun m (p : Nat × List (List Nat × Option (List Nat))) =>
          p.2.foldl (fun m' kv => insertMerged kv.1 (kv.2, p.1) m') m) []
      let finalEntries := merged.filterMap
        (fun kv => match kv.2.1 with
          | none => none
          | some v => some (kv.1, some v))
      match finalEntries with
      | [] =>
        (.error .serialization, files.foldl (fun m t => removeFile m t.meta.id) mgr)
      | _ :: _ =>
        match writeSst hash mgr finalEntries with
        | (.error e, mgr') => (.error e, mgr')
        | (.ok newTable, mgr') =>
          (.ok newTable, files.foldl (fun m t => removeFile m t.meta.id) mgr')

/-! ## Engine dispatcher (`engine.rs`)

Wall-clock timestamps carry no semantics in the store; the model fixes them
to 0.  The in-memory `Index` only shadows the memtable (reads never consult
it — see the comment in `StorageEngine::get`), so it is not modelled. -/

/-- `StorageEngine` state: sequence counter, memtable, table manager, and the
current WAL segment's byte stream. -/
structure EngineState where
  sequence : Nat
  memtable : Memtable
  mgr : MgrState
  wal : List Nat
  deriving DecidableEq, Repr

namespace EngineState

/-- `StorageEngine::flush_memtable`: snapshot the memtable (tombstones
included), write a table when the snapshot is non-empty, then clear. -/
def flushMemtable (hash : List Nat → Nat → Nat) (s : EngineState) : Except Err EngineState :=
  let entries := s.memtable.getAllEntries
  if entries.isEmpty then
    .ok { s with memtable := s.memtable.clear }
  else
    match writeSst hash s.mgr entries with
    | (.error e, _) => .error e
    | (.ok _, mgr') => .ok { s with mgr := mgr', memtable := s.memtable.clear }

/-- `StorageEngine::put`: assign a sequence number, append the record to the
WAL (the sync is a durability effect with no state in the model), insert into
the memtable, and flush when the memtable is full. -/
def put (hash : List Nat → Nat → Nat) (s : EngineState) (key value : List Nat) :
    Except Err EngineState :=
  let seq := s.sequence
  let entry : WalEntry := ⟨0, 0, seq, key, value, .put⟩
  let s1 := { s with
    sequence := seq + 1
    wal := s.wal ++ entry.serialize s.mgr.algo
    memtable := s.memtable.put key value seq 0 }
  if s1.memtable.isFull then s1.flushMemtable hash else .ok s1

/-- `StorageEngine::delete`: like `put` with a `Delete` record and a memtable
tombstone. -/
def delete (hash : List Nat → Nat → Nat) (s : EngineState) (key : List Nat) :
    Except Err EngineState :=
  let seq := s.sequence
  let entry : WalEntry := ⟨0, 0, seq, key, [], .delete⟩
  let s1 := { s with
    sequence := seq + 1
    wal := s.wal ++ entry.serialize s.mgr.algo
    memtable := s.memtable.delete key seq 0 }
  if s1.memtable.isFull then s1.flushMemtable hash else .ok s1

/-- The newest-to-oldest table walk of `StorageEngine::get` (the caller passes
`tables.reverse`): tables are pruned by key range and bloom filter; a decoded
`some value` is returned; a tombstone or miss (both `none` from `sstRead`)
moves on to the next table. -/
def getFromTables (hash : List Nat → Nat → Nat) (algo : ChecksumAlgorithm) (key : List Nat) :
    List SstTable → Except Err (Option (List Nat))
  | [] => .ok none
  | t :: rest =>
    if t.meta.inRange key && t.meta.mayContain hash key then
      match sstRead hash algo t key with
      | .error e => .error e
      | .ok (some v) => .ok (some v)
      | .ok none => getFromTables hash algo key rest
    else getFromTables hash algo key rest

/-- `StorageEngine::get`: a memtable hit (value or tombstone) is final,
otherwise the tables are searched newest first. -/
def get (hash : List Nat → Nat → Nat) (s : EngineState) (key : List Nat) :
    Except Err (Option (List Nat)) :=
  match s.memtable.get key with
  | some entry => .ok entry.value
  | none => getFromTables hash s.mgr.algo key s.mgr.tables.reverse

/-- Collect the scan results of all overlapping tables (the `for sst_file in
sst_files` loop of `StorageEngine::scan`; errors propagate). -/
def scanTables (algo : ChecksumAlgorithm) (start end_ : List Nat) :
    List SstTable → Except Err (List (List Nat × List Nat))
  | [] => .ok []
  | t :: rest =>
    match sstScan algo t start end_ with
    | .error e => .error e
    | .ok entries =>
      match scanTables algo start end_ rest with
      | .error e => .error e
      | .ok more => .ok (entries ++ more)

/-- Insert-or-replace into the ordered merge map of `StorageEngine::scan`. -/
def insertScanMerge (key value : List Nat) :
    List (List Nat × List Nat) → List (List Nat × List Nat)
  | [] => [(key, value)]
  | (k, v) :: rest =>
    if keyLt k key then (k, v) :: insertScanMerge key value rest
    else if keyLt key k then (key, value) :: (k, v) :: rest
    else (key, value) :: rest

/-- `StorageEngine::scan`: memtable entries over `[start, end)`, table entries
over `[start, end]` from every overlapping table, merged with memtable
entries overriding table entries, then keys whose memtable binding is a
tombstone are removed. -/
def scan (s : EngineState) (start end_ : List Nat) :
    Except Err (List (List Nat × List Nat)) :=
  let memtableEntries := s.memtable.scan start end_
  let sstFiles := getOverlappingFiles s.mgr start end_
  match scanTables s.mgr.algo start end_ sstFiles with
  | .error e => .error e
  | .ok sstEntries =>
    let merged := sstEntries.foldl (fun m kv => insertScanMerge kv.1 kv.2 m) []
    let merged := memtableEntries.foldl (fun m kv => insertScanMerge kv.1 kv.2 m) merged
    let results := merged.filter (fun kv =>
      match s.memtable.get kv.1 with
      | some entry => entry.value.isSome
      | none => true)
    .ok results

/-- The WAL replay of `StorageEngine::recover`: apply every record to the
memtable with its original sequence and track the maximum sequence; afterwards
`next_sequence` is set to `max_seq + 1` (with `max_seq` starting at 0). -/
def recoverReplay (entries : List WalEntry) (memtable : Memtable) :
    Memtable × Nat :=
  let m := entries.foldl
    (fun m e =>
      match e.op_type with
      | .put => m.put e.key e.value e.sequence 0
      | .delete => m.delete e.key e.sequence 0)
    memtable
  let maxSeq := entries.foldl (fun acc e => max acc e.sequence) 0
  (m, maxSeq + 1)

/-- `StorageEngine::recover` applied to the records returned by
`WalManager::recover`: replay into a fresh memtable of the configured bound
and reset `next_sequence`. -/
def recover (entries : List WalEntry) (memtableBound : Nat) (mgr : MgrState)
    (wal : List Nat) : EngineState :=
  let (m, nextSeq) := recoverReplay entries (Memtable.new memtableBound)
  ⟨nextSeq, m, mgr, wal⟩

end EngineState

/-! ## Byte-extraction lemmas -/

theorem readLE_here {l rest : List Nat} {w : Nat} (h : l.length = w) :
    readLE (l ++ rest) 0 w = fromLE l := by
  simp [readLE, List.take_left' h]

theorem drop_append_add {l rest : List Nat} (off : Nat) :
    (l ++ rest).drop (l.length + off) = rest.drop off := by
  rw [← List.drop_drop, List.drop_left]

theorem readLE_skip {l rest : List Nat} (off w : Nat) :
    readLE (l ++ rest) (l.length + off) w = readLE rest off w := by
  simp [readLE, drop_append_add]

theorem crc32Step_lt {c : Nat} (h : c < 2 ^ 32) : crc32Step c < 2 ^ 32 := by
  unfold crc32Step
  split
  · exact Nat.xor_lt_two_pow (by omega) (by norm_num)
  · omega

theorem crc32Byte_lt {c : Nat} (b : Nat) (h : c < 2 ^ 32) : crc32Byte c b < 2 ^ 32 := by
  have h0 : c ^^^ (b % 256) < 2 ^ 32 :=
    Nat.xor_lt_two_pow h (lt_of_lt_of_le (Nat.mod_lt _ (by norm_num)) (by norm_num))
  simp only [crc32Byte, List.range_succ, List.foldl_append, List.foldl_cons, List.foldl_nil,
    List.range_zero]
  exact crc32Step_lt (crc32Step_lt (crc32Step_lt (crc32Step_lt (crc32Step_lt (crc32Step_lt
    (crc32Step_lt (crc32Step_lt h0)))))))

theorem crc32_lt (data : List Nat) : crc32 data < 2 ^ 32 := by
  have h : ∀ (l : List Nat) (c : Nat), c < 2 ^ 32 → l.foldl crc32Byte c < 2 ^ 32 := by
    intro l
    induction l with
    | nil => intro c hc; simpa using hc
    | cons b bs ih => intro c hc; exact ih _ (crc32Byte_lt b hc)
  exact Nat.xor_lt_two_pow (h data 0xFFFFFFFF (by norm_num)) (by norm_num)

theorem ChecksumAlgorithm.compute_lt (algo : ChecksumAlgorithm) (data : List Nat) :
    algo.compute data < 2 ^ 32 := by
  cases algo with
  | CRC32 => exact crc32_lt data
  | XXH64 => exact Nat.mod_lt _ (by norm_num)

namespace WalEntry

theorem body_length (e : WalEntry) : e.body.length = 28 + e.key.length + e.value.length := by
  simp [body]
  omega

theorem le_serializedSize (e : WalEntry) :
    32 + e.key.length + e.value.length ≤ e.serializedSize := by
  unfold serializedSize PAGE_SIZE
  have h := Nat.div_add_mod (32 + e.key.length + e.value.length + 4096 - 1) 4096
  have h2 : (32 + e.key.length + e.value.length + 4096 - 1) % 4096 < 4096 :=
    Nat.mod_lt _ (by norm_num)
  omega

theorem serialize_length (e : WalEntry) (algo : ChecksumAlgorithm) :
    (e.serialize algo).length = e.serializedSize := by
  have h := e.le_serializedSize
  simp [serialize, body_length]
  omega

theorem serialize_mod_page (e : WalEntry) (algo : ChecksumAlgorithm) :
    (e.serialize algo).length % 4096 = 0 := by
  rw [serialize_length]
  simp [serializedSize, PAGE_SIZE, Nat.mul_mod_left]

/-- The serialized record in fully right-associated form. -/
theorem serialize_assoc (e : WalEntry) (algo : ChecksumAlgorithm) :
    e.serialize algo =
      toLE 4 (algo.compute e.body) ++ (toLE 8 e.timestamp ++ (toLE 8 e.sequence ++
        (toLE 4 e.key.length ++ (toLE 4 e.value.length ++ (([e.op_type.toU8] ++ [0, 0, 0]) ++
          (e.key ++ (e.value ++
            List.replicate (e.serializedSize - (32 + e.key.length + e.value.length)) 0))))))) := by
  simp [serialize, body, List.append_assoc]

end WalEntry

theorem drop_shift {l rest : List Nat} {off : Nat} (h : l.length ≤ off) :
    (l ++ rest).drop off = rest.drop (off - l.length) := by
  conv_lhs => rw [show off = l.length + (off - l.length) by omega]
  exact drop_append_add _

theorem readLE_shift {l rest : List Nat} {off : Nat} (w : Nat) (h : l.length ≤ off) :
    readLE (l ++ rest) off w = readLE rest (off - l.length) w := by
  simp only [readLE]
  rw [drop_shift h]

namespace WalEntry

theorem serialize_readLE_checksum (e : WalEntry) (algo : ChecksumAlgorithm) :
    readLE (e.serialize algo) 0 4 = algo.compute e.body := by
  rw [serialize_assoc, readLE_here (by simp), fromLE_toLE]
  exact Nat.mod_eq_of_lt (by simpa using algo.compute_lt e.body)

theorem serialize_readLE_timestamp (e : WalEntry) (algo : ChecksumAlgorithm)
    (hts : e.timestamp < 2 ^ 64) :
    readLE (e.serialize algo) 4 8 = e.timestamp := by
  rw [serialize_assoc, readLE_shift 8 (by simp)]
  simp only [toLE_length]
  rw [show (4 - 4 : Nat) = 0 from rfl, readLE_here (by simp), fromLE_toLE]
  exact Nat.mod_eq_of_lt (by simpa using hts)

theorem serialize_readLE_sequence (e : WalEntry) (algo : ChecksumAlgorithm)
    (hseq : e.sequence < 2 ^ 64) :
    readLE (e.serialize algo) 12 8 = e.sequence := by
  rw [serialize_assoc, readLE_shift 8 (by simp), readLE_shift 8 (by simp)]
  simp only [toLE_length]
  rw [show (12 - 4 - 8 : Nat) = 0 from rfl, readLE_here (by simp), fromLE_toLE]
  exact Nat.mod_eq_of_lt (by simpa using hseq)

theorem serialize_readLE_keyLen (e : WalEntry) (algo : ChecksumAlgorithm)
    (hk : e.key.length < 2 ^ 32) :
    readLE (e.serialize algo) 20 4 = e.key.length := by
  rw [serialize_assoc, readLE_shift 4 (by simp), readLE_shift 4 (by simp),
    readLE_shift 4 (by simp)]
  simp only [toLE_length]
  rw [show (20 - 4 - 8 - 8 : Nat) = 0 from rfl, readLE_here (by simp), fromLE_toLE]
  exact Nat.mod_eq_of_lt (by simpa using hk)

theorem serialize_readLE_valueLen (e : WalEntry) (algo : ChecksumAlgorithm)
    (hv : e.value.length < 2 ^ 32) :
    readLE (e.serialize algo) 24 4 = e.value.length := by
  rw [serialize_assoc, readLE_shift 4 (by simp), readLE_shift 4 (by simp),
    readLE_shift 4 (by simp), readLE_shift 4 (by simp)]
  simp only [toLE_length]
  rw [show (24 - 4 - 8 - 8 - 4 : Nat) = 0 from rfl, readLE_here (by simp), fromLE_toLE]
  exact Nat.mod_eq_of_lt (by simpa using hv)

theorem serialize_opByte (e : WalEntry) (algo : ChecksumAlgorithm) :
    ((e.serialize algo).drop 28).headD 0 = e.op_type.toU8 := by
  rw [serialize_assoc, drop_shift (by simp), drop_shift (by simp), drop_shift (by simp),
    drop_shift (by simp), drop_shift (by simp)]
  simp

theorem serialize_drop32 (e : WalEntry) (algo : ChecksumAlgorithm) :
    (e.serialize algo).drop 32 = e.key ++ (e.value ++
      List.replicate (e.serializedSize - (32 + e.key.length + e.value.length)) 0) := by
  rw [serialize_assoc, drop_shift (by simp), drop_shift (by simp), drop_shift (by simp),
    drop_shift (by simp), drop_shift (by simp), drop_shift (by simp)]
  simp only [toLE_length, List.length_append, List.length_cons, List.length_nil]
  rw [show (32 - 4 - 8 - 8 - 4 - 4 - (1 + (1 + (1 + (1 + 0))) + 0) : Nat) = 0 by norm_num]
  rw [List.drop_zero]

theorem serialize_key (e : WalEntry) (algo : ChecksumAlgorithm) :
    ((e.serialize algo).drop 32).take e.key.length = e.key := by
  rw [serialize_drop32, List.take_left' rfl]

theorem serialize_value (e : WalEntry) (algo : ChecksumAlgorithm) :
    ((e.serialize algo).drop (32 + e.key.length)).take e.value.length = e.value := by
  rw [show (32 + e.key.length : Nat) = 32 + e.key.length from rfl, ← List.drop_drop,
    serialize_drop32, List.drop_left, List.take_left' rfl]

theorem serialize_checksum_region (e : WalEntry) (algo : ChecksumAlgorithm) :
    ((e.serialize algo).drop 4).take (28 + e.key.length + e.value.length) = e.body := by
  have hlen : e.body.length = 28 + e.key.length + e.value.length := e.body_length
  rw [show e.serialize algo = toLE 4 (algo.compute e.body) ++ (e.body ++
    List.replicate (e.serializedSize - (32 + e.key.length + e.value.length)) 0) by
      simp [serialize, List.append_assoc]]
  rw [drop_shift (by simp), show (4 - (toLE 4 (algo.compute e.body)).length : Nat) = 0 by simp]
  rw [List.drop_zero, List.take_left' hlen]

/-- Round-trip of the WAL record codec: within the length limits, decoding a
serialized record restores every field (the checksum field becomes the
computed one). -/
theorem deserialize_serialize (e : WalEntry) (algo : ChecksumAlgorithm)
    (hk : e.key.length ≤ 64 * 1024) (hv : e.value.length ≤ 1024 * 1024)
    (hts : e.timestamp < 2 ^ 64) (hseq : e.sequence < 2 ^ 64) :
    deserialize (e.serialize algo) algo =
      .ok ⟨algo.compute e.body, e.timestamp, e.sequence, e.key, e.value, e.op_type⟩ := by
  have hk32 : e.key.length < 2 ^ 32 := by omega
  have hv32 : e.value.length < 2 ^ 32 := by omega
  have hlen := e.serialize_length algo
  have hsz := e.le_serializedSize
  unfold deserialize
  rw [if_neg (by omega)]
  simp only [serialize_readLE_checksum, serialize_readLE_timestamp e algo hts,
    serialize_readLE_sequence e algo hseq, serialize_readLE_keyLen e algo hk32,
    serialize_readLE_valueLen e algo hv32]
  rw [if_neg (by omega), if_neg (by omega), serialize_opByte]
  have hop : OpType.fromU8 e.op_type.toU8 = some e.op_type := by
    cases e.op_type <;> rfl
  simp only [hop]
  rw [if_neg (by omega)]
  rw [serialize_key, serialize_value, show (32 + e.key.length + e.value.length - 4 : Nat) =
    28 + e.key.length + e.value.length by omega, serialize_checksum_region]
  rw [show algo.verify e.body (algo.compute e.body) = true by
    simp [ChecksumAlgorithm.verify]]
  rfl

theorem serializedSize_mod_page (e : WalEntry) : e.serializedSize % 4096 = 0 := by
  simp [serializedSize, PAGE_SIZE, Nat.mul_mod_left]

end WalEntry

/-! ## Recovery loop versus the spec's description (claim C4) -/

theorem nextPageBoundary_mod (off : Nat) : nextPageBoundary off % 4096 = 0 := by
  simp [nextPageBoundary, PAGE_SIZE, Nat.mul_mod_left]

theorem nextPageBoundary_of_aligned {off : Nat} (h : off % 4096 = 0) :
    nextPageBoundary off = off + 4096 := by
  have hd := Nat.div_add_mod off 4096
  simp only [nextPageBoundary, PAGE_SIZE]
  omega

theorem WalEntry.deserialize_short {data : List Nat} (h : data.length < 32)
    (algo : ChecksumAlgorithm) : WalEntry.deserialize data algo = .error .serialization := by
  unfold WalEntry.deserialize
  rw [if_pos h]

/-- At page-aligned cursors the source's recovery loop (which stops when fewer
than 24 bytes remain) agrees with the spec's loop (which decodes, fails on the
short remainder, and skips past the end). -/
theorem recoverSegmentLoop_eq_spec (algo : ChecksumAlgorithm) (data : List Nat) :
    ∀ n off, data.length - off ≤ n → off % 4096 = 0 →
      recoverSegmentLoop algo data off = recoverSegmentSpecLoop algo data off := by
  intro n
  induction n with
  | zero =>
    intro off hle _hal
    rw [recoverSegmentLoop, recoverSegmentSpecLoop]
    rw [dif_neg (by omega), dif_neg (by omega)]
  | succ n ih =>
    intro off hle hal
    by_cases hlt : off < data.length
    · rw [recoverSegmentLoop, recoverSegmentSpecLoop, dif_pos hlt, dif_pos hlt]
      by_cases hshort : data.length - off < 24
      · rw [if_pos hshort]
        have hfail : WalEntry.deserialize (data.drop off) algo = .error .serialization :=
          WalEntry.deserialize_short (by simp [List.length_drop]; omega) algo
        rw [hfail]
        rw [recoverSegmentSpecLoop, dif_neg (by rw [nextPageBoundary_of_aligned hal]; omega)]
      · rw [if_neg hshort]
        cases hdes : WalEntry.deserialize (data.drop off) algo with
        | ok e =>
          have hsz := serializedSize_pos e
          have hmod := e.serializedSize_mod_page
          exact congrArg (e :: ·)
            (ih (off + e.serializedSize) (by omega) (by omega))
        | error err =>
          rw [nextPageBoundary_of_aligned hal]
          exact ih (off + 4096) (by omega) (by omega)
    · rw [recoverSegmentLoop, recoverSegmentSpecLoop, dif_neg hlt, dif_neg hlt]

/-- `recover_segment` computes exactly what the spec describes. -/
theorem recoverSegment_eq_spec (algo : ChecksumAlgorithm) (data : List Nat) :
    recoverSegment algo data = recoverSegmentSpec algo data :=
  recoverSegmentLoop_eq_spec algo data (data.length - 0) 0 (le_refl _) rfl

/-- Decoding validates the length limits, so every decoded record's key and
value are within them. -/
theorem WalEntry.deserialize_bounds {data : List Nat} {algo : ChecksumAlgorithm} {e : WalEntry}
    (h : WalEntry.deserialize data algo = .ok e) :
    e.key.length ≤ 64 * 1024 ∧ e.value.length ≤ 1024 * 1024 := by
  unfold WalEntry.deserialize at h
  split at h
  · exact absurd h (by simp)
  · dsimp only at h
    split at h
    · exact absurd h (by simp)
    · split at h
      · exact absurd h (by simp)
      · split at h
        · exact absurd h (by simp)
        · split at h
          · exact absurd h (by simp)
          · split at h
            · simp only [Except.ok.injEq] at h
              subst h
              refine ⟨?_, ?_⟩
              · have h1 := List.length_take_le (readLE data 20 4) (data.drop 32)
                dsimp only
                omega
              · have h1 := List.length_take_le (readLE data 24 4)
                  (data.drop (32 + readLE data 20 4))
                dsimp only
                omega
            · exact absurd h (by simp)

/-- Every record produced by the recovery loop satisfies the decode-time
length limits. -/
theorem recoverSegmentLoop_bounds (algo : ChecksumAlgorithm) (data : List Nat) :
    ∀ n off, data.length - off ≤ n →
      ∀ e ∈ recoverSegmentLoop algo data off,
        e.key.length ≤ 64 * 1024 ∧ e.value.length ≤ 1024 * 1024 := by
  intro n
  induction n with
  | zero =>
    intro off hle e he
    rw [recoverSegmentLoop, dif_neg (by omega)] at he
    exact absurd he (by simp)
  | succ n ih =>
    intro off hle e he
    by_cases hlt : off < data.length
    · rw [recoverSegmentLoop, dif_pos hlt] at he
      by_cases hshort : data.length - off < 24
      · rw [if_pos hshort] at he
        exact absurd he (by simp)
      · rw [if_neg hshort] at he
        cases hdes : WalEntry.deserialize (data.drop off) algo with
        | ok e' =>
          rw [hdes] at he
          simp only [List.mem_cons] at he
          rcases he with rfl | he
          · exact WalEntry.deserialize_bounds hdes
          · have hsz := serializedSize_pos e'
            exact ih (off + e'.serializedSize) (by omega) e he
        | error err =>
          rw [hdes] at he
          have hnp := lt_nextPageBoundary off
          exact ih (nextPageBoundary off) (by omega) e he
    · rw [recoverSegmentLoop, dif_neg hlt] at he
      exact absurd he (by simp)

/-! ## Size-tiered selection versus its specification (claim C5) -/

/-- Modelled from the amended description of the selection sweep: the sorted
snapshot is partitioned into consecutive groups, each group being a maximal
run whose members stay within `size_ratio` of the group's first file size. -/
def groupsSpec (sizeRatio : ℚ) : List SstFile → List (List SstFile)
  | [] => []
  | f :: rest =>
    (f :: rest.takeWhile (fun g => ratioWithin sizeRatio g.size f.size)) ::
      groupsSpec sizeRatio (rest.dropWhile (fun g => ratioWithin sizeRatio g.size f.size))
  termination_by l => l.length
  decreasing_by
  have := (List.dropWhile_sublist
    (l := gs) (fun x => ratioWithin sizeRatio x.size g.size)).length_le
  simp
  omega

theorem sizeTieredLoop_spec (sizeRatio : ℚ) (minThreshold : Nat) :
    ∀ (rest : List SstFile) (groups : List (List SstFile)) (cur : List SstFile) (curSize : Nat),
      sizeTieredLoop sizeRatio minThreshold groups cur curSize rest =
        groups ++
          (((cur ++ rest.takeWhile (fun g => ratioWithin sizeRatio g.size curSize)) ::
            groupsSpec sizeRatio
              (rest.dropWhile (fun g => ratioWithin sizeRatio g.size curSize))).filter
            (fun g => minThreshold ≤ g.length)) := by
  intro rest
  induction rest with
  | nil =>
    intro groups cur curSize
    simp only [sizeTieredLoop, List.takeWhile_nil, List.dropWhile_nil, List.append_nil,
      groupsSpec, List.filter]
    by_cases h : minThreshold ≤ cur.length
    · simp [h]
    · simp [h]
  | cons f rest ih =>
    intro groups cur curSize
    by_cases hr : ratioWithin sizeRatio f.size curSize
    · rw [sizeTieredLoop, if_pos hr, ih]
      simp only [List.takeWhile_cons, List.dropWhile_cons, hr, if_pos]
      simp [List.append_assoc]
    · rw [sizeTieredLoop, if_neg hr, ih]
      simp only [List.takeWhile_cons, List.dropWhile_cons, hr]
      simp only [Bool.false_eq_true, if_false]
      by_cases hc : minThreshold ≤ cur.length
      · simp only [List.takeWhile_nil, List.dropWhile_nil, List.append_nil, groupsSpec,
          List.filter, decide_eq_true_eq]
        rw [if_pos hc]
        simp [groupsSpec, List.filter_cons, hc, List.append_assoc]
      · simp only [List.takeWhile_nil, List.dropWhile_nil, List.append_nil]
        rw [if_neg hc]
        simp [groupsSpec, List.filter_cons, hc]

/-! ## Data-block bound (claim C8) -/

/-- Every block the packing loop emits is within `DATA_BLOCK_SIZE` or holds a
single encoded record (whose size alone exceeds the bound). -/
theorem packBlocksGo_bound (algo : ChecksumAlgorithm) :
    ∀ (entries : List (List Nat × Option (List Nat))) (cur fk : List Nat),
      (cur = [] ∨ cur.length ≤ DATA_BLOCK_SIZE ∨
        ∃ k v, cur = SstEntry.serialize ⟨k, v⟩ algo) →
      ∀ b ∈ packBlocksGo algo cur fk entries,
        b.1.length ≤ DATA_BLOCK_SIZE ∨ ∃ k v, b.1 = SstEntry.serialize ⟨k, v⟩ algo := by
  intro entries
  induction entries with
  | nil =>
    intro cur fk hinv b hb
    simp only [packBlocksGo] at hb
    split at hb
    · exact absurd hb (by simp)
    · rename_i hne
      simp only [List.mem_singleton] at hb
      subst hb
      rcases hinv with h | h | h
      · simp [h, List.isEmpty_nil] at hne
      · exact Or.inl h
      · exact Or.inr h
  | cons kv rest ih =>
    obtain ⟨k, v⟩ := kv
    intro cur fk hinv b hb
    rw [packBlocksGo] at hb
    split at hb
    · rename_i hover
      simp only [List.mem_cons] at hb
      rcases hb with rfl | hb
      · rcases hinv with h | h | h
        · rw [h] at hover
          simp at hover
        · exact Or.inl h
        · exact Or.inr h
      · exact ih _ _ (Or.inr (Or.inr ⟨k, v, rfl⟩)) b hb
    · rename_i hfits
      refine ih _ _ ?_ b hb
      by_cases hcur : cur = []
      · subst hcur
        exact Or.inr (Or.inr ⟨k, v, by simp⟩)
      · right; left
        have hne : cur.isEmpty = false := by
          simpa [List.isEmpty_iff] using hcur
        have hle : ¬ DATA_BLOCK_SIZE <
            cur.length + (SstEntry.serialize ⟨k, v⟩ algo).length := by
          intro hgt
          exact hfits (by simp [hne, hgt])
        simp only [List.length_append]
        omega

/-! ## Recovery sequence characterisation (claim C7) -/

theorem foldl_max_eq_foldr (l : List Nat) :
    ∀ a : Nat, l.foldl max a = max a (l.foldr max 0) := by
  induction l with
  | nil => intro a; simp
  | cons x xs ih =>
    intro a
    simp only [List.foldl_cons, List.foldr_cons, ih (max a x)]
    omega

theorem le_foldr_max {x : Nat} {l : List Nat} (h : x ∈ l) : x ≤ l.foldr max 0 := by
  induction l with
  | nil => exact absurd h (by simp)
  | cons y ys ih =>
    simp only [List.mem_cons] at h
    simp only [List.foldr_cons]
    rcases h with rfl | h
    · omega
    · have := ih h
      omega

theorem recoverReplay_nextSeq (entries : List WalEntry) (m0 : Memtable) :
    (EngineState.recoverReplay entries m0).2 =
      (entries.map WalEntry.sequence).foldr max 0 + 1 := by
  simp only [EngineState.recoverReplay]
  rw [show entries.foldl (fun acc e => max acc e.sequence) 0 =
    (entries.map WalEntry.sequence).foldl max 0 from (List.foldl_map _ _ _ _).symm]
  rw [foldl_max_eq_foldr]
  omega

/-! ## Concrete scenarios used by the claim theorems

`hashZero` is one admissible instantiation of the opaque `DefaultHasher`; the
outcomes below do not depend on the hash because inserted keys always pass
the bloom filter. -/

def hashZero : List Nat → Nat → Nat := fun _ _ => 0

/-- A freshly initialised engine: empty memtable (1 MB bound), no tables,
empty WAL. -/
def engineInit (algo : ChecksumAlgorithm) : EngineState :=
  ⟨0, Memtable.new 1000000, ⟨[], 0, algo⟩, []⟩

/-- The engine after `put "k" "v"; flush; delete "k"; flush` on a CRC32
store: the older table holds the live value, the newer table holds the
tombstone, and the memtable is empty. -/
def tombstoneShadowState : Except Err EngineState :=
  (EngineState.put hashZero (engineInit .CRC32) [107] [118]).bind fun s1 =>
    (EngineState.flushMemtable hashZero s1).bind fun s2 =>
      (EngineState.delete hashZero s2 [107]).bind fun s3 =>
        EngineState.flushMemtable hashZero s3

/-- The engine after `put "c" "3"; flush` on a CRC32 store. -/
def scanEndState : Except Err EngineState :=
  (EngineState.put hashZero (engineInit .CRC32) [99] [51]).bind fun s1 =>
    EngineState.flushMemtable hashZero s1

/-- The manager of an XXH64 store holding one table with the single live
record `"a" -> "1"` (built by `put "a" "1"; flush`). -/
def xxh64Mgr : MgrState :=
  match (EngineState.put hashZero (engineInit .XXH64) [97] [49]).bind
      (fun s1 => EngineState.flushMemtable hashZero s1) with
  | .ok s => s.mgr
  | .error _ => ⟨[], 0, .XXH64⟩

def emptyTable : SstTable :=
  ⟨⟨0, [], [], 0, 0, ⟨[], 0, 0⟩⟩, []⟩

/-! ## Claims -/

set_option maxRecDepth 1000000 in
/-- C1.  The claim says a table tombstone masks older live values of the same
key, so `Get("k")` must return `none` here.  Instead, the engine's table walk
treats the newer table's tombstone (`sstRead` = `ok none`) like a miss,
continues into the older table, and serves the deleted value `"v"`: after
`put "k" "v"; flush; delete "k"; flush`, `get "k"` returns `some "v"` from a
state whose memtable is empty and whose table set holds the two flushed
tables. -/
theorem claim_C1_get_serves_stale_value_after_tombstone_flush :
    tombstoneShadowState.bind
        (fun s => (EngineState.get hashZero s [107]).map
          (fun v => (v, s.memtable.data, s.mgr.tables.length))) =
      .ok (some [118], [], 2) := by
  decide

set_option maxRecDepth 1000000 in
/-- C2.  The claim says table-collected entries are trimmed to the half-open
range, so a key equal to `end` is never returned.  The engine performs no such
trim: with the single record `"c" -> "3"` flushed to a table,
`scan("a", "c")` returns `[("c", "3")]`, a key equal to the scan's `end`
bound (contradicting the engine's own half-open contract). -/
theorem claim_C2_scan_returns_key_equal_to_end :
    scanEndState.bind (fun s => EngineState.scan s [97] [99]) =
      .ok [([99], [51])] := by
  decide

set_option maxRecDepth 1000000 in
/-- C3.  The claim says no live key is ever lost by a merge step under either
configured checksum algorithm.  `read_all_entries_from_sst` hardcodes CRC32,
so on an XXH64 store the very first record fails checksum verification, the
merge reads zero entries, concludes nothing survives, deletes the input
table, and errors out: the live key `"a"` (readable through the proper XXH64
read path, conjunct 1) is lost (conjuncts 2-4). -/
theorem claim_C3_merge_loses_live_key_on_xxh64_store :
    sstRead hashZero .XXH64 (xxh64Mgr.tables.headD emptyTable) [97] = .ok (some [49]) ∧
    readAllEntriesFromSst (xxh64Mgr.tables.headD emptyTable) = .ok [] ∧
    (mergeSstFiles hashZero xxh64Mgr xxh64Mgr.tables).1 = .error .serialization ∧
    (mergeSstFiles hashZero xxh64Mgr xxh64Mgr.tables).2.tables = [] ∧
    xxh64Mgr.tables.length = 1 := by
  refine ⟨by decide, by decide, by decide, by decide, by decide⟩

/-- C4.  WAL recovery decodes each segment sequentially from the start:
a successful decode appends the record and advances the cursor by the
record's serialized size, a failed decode (short buffer, bad lengths, bad
opcode, checksum mismatch) advances the cursor to the next 4096-byte
boundary, recovery always runs to the end of the stream (it is a total
function, so corruption never fails startup), and the records of all
segments are returned in original append order: `recover_segment` equals the
spec-modelled loop, and multi-segment recovery is their in-order
concatenation. -/
theorem claim_C4_recovery_skips_to_page_boundary (algo : ChecksumAlgorithm)
    (data : List Nat) (segments : List (List Nat)) :
    recoverSegment algo data = recoverSegmentSpec algo data ∧
    walRecover algo segments = (segments.map (recoverSegmentSpec algo)).flatten := by
  refine ⟨recoverSegment_eq_spec algo data, ?_⟩
  simp only [walRecover,
    show recoverSegment algo = recoverSegmentSpec algo from funext (recoverSegment_eq_spec algo)]

/-- A table-metadata value used by the size-tiered selection scenarios (only
`id` and `size` matter to selection). -/
def c5File (i sz : Nat) : SstFile :=
  ⟨i, [], [], 0, sz, ⟨[], 0, 0⟩⟩

/-- C5 counterexample.  The claim says the selector takes the first completed
group only if it reaches `min_threshold`, "selecting nothing when the first
completed group is below the threshold even if a later group meets it".
With sizes `[1, 10, 10, 10]`, ratio 2 and threshold 3, the first completed
group is the singleton `[1]` (below threshold), yet the source discards it
and selects the later group of the three 10-byte files. -/
theorem claim_C5_counterexample_later_group_selected :
    selectSizeTiered [c5File 0 1, c5File 1 10, c5File 2 10, c5File 3 10] 2 3 =
      [c5File 1 10, c5File 2 10, c5File 3 10] ∧
    selectSizeTiered [c5File 0 1, c5File 1 10, c5File 2 10, c5File 3 10] 2 3 ≠ [] := by
  refine ⟨by decide, by decide⟩

/-- C5 (amended).  Size-tiered selection sorts the snapshot by size
ascending and sweeps left to right, starting a new group whenever the next
file's size exceeds `size_ratio` times the group's first file size; groups
below `min_threshold` are discarded, and the first group (in sweep order)
with at least `min_threshold` members is selected — nothing is selected when
no group reaches the threshold, and in particular when the snapshot holds
fewer than `min_threshold` tables. -/
theorem claim_C5_first_sufficient_group_selected (files : List SstFile) (sizeRatio : ℚ)
    (minThreshold : Nat) :
    selectSizeTiered files sizeRatio minThreshold =
      if files.length < minThreshold then []
      else
        (((groupsSpec sizeRatio (sortBySize files)).filter
          (fun g => minThreshold ≤ g.length)).head?).getD [] := by
  unfold selectSizeTiered
  by_cases hlen : files.length < minThreshold
  · rw [if_pos hlen, if_pos hlen]
  · rw [if_neg hlen, if_neg hlen]
    cases hs : sortBySize files with
    | nil => simp [groupsSpec]
    | cons f rest =>
      dsimp only
      rw [sizeTieredLoop_spec, groupsSpec]
      simp

/-- C6.  Within the length limits (keys up to 65,536 bytes, values up to
1,048,576 bytes) and the `u64` field ranges, deserializing the serialization
of a Put log record succeeds, restores every field, and the serialized
length is a multiple of 4096 — for either checksum algorithm. -/
theorem claim_C6_wal_record_roundtrip (K V : List Nat) (ts seq : Nat)
    (algo : ChecksumAlgorithm) (hk : K.length ≤ 64 * 1024) (hv : V.length ≤ 1024 * 1024)
    (hts : ts < 2 ^ 64) (hseq : seq < 2 ^ 64) :
    (∃ e' : WalEntry,
      WalEntry.deserialize ((WalEntry.mk 0 ts seq K V .put).serialize algo) algo = .ok e' ∧
      e'.key = K ∧ e'.value = V ∧ e'.op_type = .put ∧ e'.timestamp = ts ∧ e'.sequence = seq) ∧
    ((WalEntry.mk 0 ts seq K V .put).serialize algo).length % 4096 = 0 :=
  ⟨⟨_, WalEntry.deserialize_serialize (WalEntry.mk 0 ts seq K V .put) algo hk hv hts hseq,
    rfl, rfl, rfl, rfl, rfl⟩,
   WalEntry.serialize_mod_page (WalEntry.mk 0 ts seq K V .put) algo⟩

/-- Witness for C6 at the concrete record `Put [1] [2]` (timestamp 3,
sequence 4, CRC32). -/
theorem claim_C6_wal_record_roundtrip_witness :
    (([1] : List Nat).length ≤ 64 * 1024 ∧ ([2] : List Nat).length ≤ 1024 * 1024 ∧
      (3 : Nat) < 2 ^ 64 ∧ (4 : Nat) < 2 ^ 64) ∧
    ((∃ e' : WalEntry,
      WalEntry.deserialize ((WalEntry.mk 0 3 4 [1] [2] .put).serialize .CRC32) .CRC32 =
        .ok e' ∧
      e'.key = [1] ∧ e'.value = [2] ∧ e'.op_type = .put ∧ e'.timestamp = 3 ∧
        e'.sequence = 4) ∧
    ((WalEntry.mk 0 3 4 [1] [2] .put).serialize .CRC32).length % 4096 = 0) :=
  ⟨⟨by decide, by decide, by decide, by decide⟩,
   claim_C6_wal_record_roundtrip [1] [2] 3 4 .CRC32 (by decide) (by decide) (by decide)
     (by decide)⟩

/-- C7 counterexample.  The claim says `next_sequence` is 0 when recovery
returns no records; the source initialises `max_seq` to 0 and always stores
`max_seq + 1`, so an empty recovery yields `next_sequence = 1`. -/
theorem claim_C7_counterexample_empty_recovery :
    (EngineState.recover [] 1000000 ⟨[], 0, .CRC32⟩ []).sequence = 1 ∧
    (EngineState.recover [] 1000000 ⟨[], 0, .CRC32⟩ []).sequence ≠ 0 := by
  refine ⟨by decide, by decide⟩

/-- C7 (amended).  After recovery, `next_sequence` equals the maximum
sequence number observed among the recovered records plus one, the maximum
taken as 0 when there are none — so an empty recovery starts at 1, and every
recovered record's sequence is below `next_sequence`. -/
theorem claim_C7_next_sequence_is_max_plus_one (entries : List WalEntry) (bound : Nat)
    (mgr : MgrState) (wal : List Nat) :
    (EngineState.recover entries bound mgr wal).sequence =
      (entries.map WalEntry.sequence).foldr max 0 + 1 ∧
    ∀ e ∈ entries, e.sequence < (EngineState.recover entries bound mgr wal).sequence := by
  have h1 : (EngineState.recover entries bound mgr wal).sequence =
      (EngineState.recoverReplay entries (Memtable.new bound)).2 := rfl
  rw [h1, recoverReplay_nextSeq]
  refine ⟨rfl, ?_⟩
  intro e he
  have h2 := le_foldr_max (List.mem_map_of_mem WalEntry.sequence he)
  omega

/-- Witness for C7 at a single recovered record with sequence 5. -/
theorem claim_C7_next_sequence_witness :
    (EngineState.recover [WalEntry.mk 0 0 5 [1] [2] .put] 7 ⟨[], 0, .CRC32⟩ []).sequence =
      (([WalEntry.mk 0 0 5 [1] [2] .put].map WalEntry.sequence).foldr max 0 + 1) ∧
    ∀ e ∈ [WalEntry.mk 0 0 5 [1] [2] .put], e.sequence <
      (EngineState.recover [WalEntry.mk 0 0 5 [1] [2] .put] 7 ⟨[], 0, .CRC32⟩ []).sequence :=
  claim_C7_next_sequence_is_max_plus_one [WalEntry.mk 0 0 5 [1] [2] .put] 7 ⟨[], 0, .CRC32⟩ []

theorem SstEntry.length_serialize (e : SstEntry) (algo : ChecksumAlgorithm) :
    (SstEntry.serialize e algo).length = 12 + e.key.length + e.valueLen := by
  cases hv : e.value with
  | none => simp [SstEntry.serialize, SstEntry.body, SstEntry.valueLen, hv]; omega
  | some v => simp [SstEntry.serialize, SstEntry.body, SstEntry.valueLen, hv]; omega

/-- A one-entry input is packed as a single block holding exactly the
record's encoding (the write loop starts with an empty block and never
splits a lone record). -/
theorem packBlocks_singleton (algo : ChecksumAlgorithm) (k : List Nat)
    (v : Option (List Nat))
    (h : (SstEntry.serialize ⟨k, v⟩ algo).isEmpty = false) :
    packBlocks algo [(k, v)] = [(SstEntry.serialize ⟨k, v⟩ algo, k)] := by
  rw [packBlocks, packBlocksGo]
  simp only [List.isEmpty_nil, Bool.not_true, Bool.false_and, Bool.false_eq_true, if_false]
  rw [packBlocksGo]
  simp [h]

/-- C8 counterexample.  The claim bounds every data block by 65,536 bytes for
any input within the key/value length limits.  A single record with a
65,525-byte value encodes to 65,538 bytes; the write loop places it alone in
a block of that size, exceeding the bound. -/
theorem claim_C8_counterexample_oversized_record_block :
    ((packBlocks .CRC32 [([107], some (List.replicate 65525 118))]).map
      (fun b => b.1.length)) = [65538] ∧ DATA_BLOCK_SIZE < 65538 := by
  have hv : (⟨[107], some (List.replicate 65525 118)⟩ : SstEntry).valueLen = 65525 := by
    show (List.replicate 65525 118).length = 65525
    exact List.length_replicate _ _
  have hs : (SstEntry.serialize ⟨[107], some (List.replicate 65525 118)⟩ .CRC32).length =
      65538 := by
    rw [SstEntry.length_serialize, hv]
    rfl
  have hne : (SstEntry.serialize ⟨[107], some (List.replicate 65525 118)⟩ .CRC32).isEmpty =
      false := by
    rcases hl : SstEntry.serialize ⟨[107], some (List.replicate 65525 118)⟩ .CRC32 with
      _ | ⟨a, l⟩
    · rw [hl] at hs
      simp at hs
    · rfl
  constructor
  · rw [packBlocks_singleton _ _ _ hne, List.map_cons, List.map_nil]
    dsimp only
    rw [hs]
  · decide

/-- C8 (amended).  Every data block written by the table-write loop has total
size at most 65,536 bytes unless it consists of a single encoded record whose
size alone exceeds the bound: a record is appended to a non-empty block only
when the result stays within the bound, so only a lone oversized record can
push a block past it. -/
theorem claim_C8_block_bound_or_single_record (algo : ChecksumAlgorithm)
    (entries : List (List Nat × Option (List Nat))) (b : List Nat × List Nat)
    (hb : b ∈ packBlocks algo entries) :
    b.1.length ≤ DATA_BLOCK_SIZE ∨ ∃ k v, b.1 = SstEntry.serialize ⟨k, v⟩ algo :=
  packBlocksGo_bound algo entries [] [] (Or.inl rfl) b hb

set_option maxRecDepth 1000000 in
/-- Witness for C8 at the one-record input `[([1], some [2])]`. -/
theorem claim_C8_block_bound_witness :
    (SstEntry.serialize ⟨[1], some [2]⟩ .CRC32, [1]) ∈
      packBlocks .CRC32 [([1], some [2])] ∧
    ((SstEntry.serialize ⟨[1], some [2]⟩ .CRC32, ([1] : List Nat)).1.length ≤ DATA_BLOCK_SIZE ∨
      ∃ k v, (SstEntry.serialize ⟨[1], some [2]⟩ .CRC32, ([1] : List Nat)).1 =
        SstEntry.serialize ⟨k, v⟩ .CRC32) :=
  ⟨by decide,
   claim_C8_block_bound_or_single_record .CRC32 [([1], some [2])] _ (by decide)⟩

/-- C9.  `write_sst` on the empty entry list fails with a
`SerializationError` before reserving a table id, leaving the manager
unchanged; the engine's flush snapshots the memtable, calls the table write
only when the snapshot is non-empty (appending exactly one table and
advancing the id), and clears the memtable in either case. -/
theorem claim_C9_empty_write_rejected_flush_clears
    (hash : List Nat → Nat → Nat) (mgr : MgrState) (s : EngineState) :
    (writeSst hash mgr []).1 = .error .serialization ∧
    (writeSst hash mgr []).2 = mgr ∧
    (s.memtable.getAllEntries = [] →
      EngineState.flushMemtable hash s = .ok { s with memtable := s.memtable.clear }) ∧
    (s.memtable.getAllEntries ≠ [] →
      (EngineState.flushMemtable hash s).map
          (fun s' => (s'.memtable.data, s'.mgr.nextId, s'.mgr.tables.length,
            s'.sequence, s'.wal)) =
        .ok ([], s.mgr.nextId + 1, s.mgr.tables.length + 1, s.sequence, s.wal)) := by
  refine ⟨rfl, rfl, ?_, ?_⟩
  · intro hE
    simp only [EngineState.flushMemtable, hE, List.isEmpty_nil, if_true]
  · intro hE
    cases hE2 : s.memtable.getAllEntries with
    | nil => exact absurd hE2 hE
    | cons e0 rest =>
      simp only [EngineState.flushMemtable, hE2, List.isEmpty_cons, Bool.false_eq_true,
        if_false, writeSst]
      simp [Except.map, Memtable.clear]

/-- Witness for C9 at a state whose memtable holds one binding. -/
theorem claim_C9_flush_witness :
    ((⟨5, (Memtable.new 100).put [1] [2] 3 0, ⟨[], 0, .CRC32⟩, []⟩ :
        EngineState).memtable.getAllEntries ≠ []) ∧
    ((EngineState.flushMemtable hashZero
        ⟨5, (Memtable.new 100).put [1] [2] 3 0, ⟨[], 0, .CRC32⟩, []⟩).map
      (fun s' => (s'.memtable.data, s'.mgr.nextId, s'.mgr.tables.length,
        s'.sequence, s'.wal)) = .ok ([], 0 + 1, 0 + 1, 5, [])) :=
  ⟨by decide,
   (claim_C9_empty_write_rejected_flush_clears hashZero ⟨[], 0, .CRC32⟩
      ⟨5, (Memtable.new 100).put [1] [2] 3 0, ⟨[], 0, .CRC32⟩, []⟩).2.2.2 (by decide)⟩

/-- A serialized record whose key exceeds the 65,536-byte limit fails the
decode-time key-length validation. -/
theorem WalEntry.deserialize_oversized_key (e : WalEntry) (algo : ChecksumAlgorithm)
    (hk : 64 * 1024 < e.key.length) (hk32 : e.key.length < 2 ^ 32) :
    WalEntry.deserialize (e.serialize algo) algo = .error .serialization := by
  have hlen := e.serialize_length algo
  have hsz := e.le_serializedSize
  unfold WalEntry.deserialize
  rw [if_neg (by omega)]
  simp only [WalEntry.serialize_readLE_keyLen e algo hk32]
  rw [if_pos (by omega)]

/-- A serialized record whose value exceeds the 1,048,576-byte limit fails
the decode-time length validation (on the value length, or already on the
key length when that too is oversized). -/
theorem WalEntry.deserialize_oversized_value (e : WalEntry) (algo : ChecksumAlgorithm)
    (hv : 1024 * 1024 < e.value.length) (hk32 : e.key.length < 2 ^ 32)
    (hv32 : e.value.length < 2 ^ 32) :
    WalEntry.deserialize (e.serialize algo) algo = .error .serialization := by
  have hlen := e.serialize_length algo
  have hsz := e.le_serializedSize
  unfold WalEntry.deserialize
  rw [if_neg (by omega)]
  simp only [WalEntry.serialize_readLE_keyLen e algo hk32,
    WalEntry.serialize_readLE_valueLen e algo hv32]
  by_cases hkbig : 64 * 1024 < e.key.length
  · rw [if_pos (by omega)]
  · rw [if_neg (by omega), if_pos (by omega)]

/-- C10.  The write path validates no lengths: `put` succeeds for a key (or
value) of any size, acknowledging the write and appending the record's
serialization to the WAL — yet when the key exceeds 65,536 bytes (or the
value exceeds 1,048,576 bytes) that serialization fails decode-time
validation, and no record recovered from any segment byte stream can be the
acknowledged write, so it is absent after a restart. -/
theorem claim_C10_oversized_put_acknowledged_lost_on_recovery
    (hash : List Nat → Nat → Nat) (s : EngineState) (K V : List Nat)
    (hfull : (s.memtable.put K V s.sequence 0).isFull = false)
    (hk32 : K.length < 2 ^ 32) (hv32 : V.length < 2 ^ 32) :
    EngineState.put hash s K V = .ok { s with
        sequence := s.sequence + 1
        wal := s.wal ++ (WalEntry.mk 0 0 s.sequence K V .put).serialize s.mgr.algo
        memtable := s.memtable.put K V s.sequence 0 } ∧
    (64 * 1024 < K.length →
      WalEntry.deserialize ((WalEntry.mk 0 0 s.sequence K V .put).serialize s.mgr.algo)
          s.mgr.algo = .error .serialization ∧
      ∀ seg, ∀ e ∈ recoverSegment s.mgr.algo seg, e.key ≠ K) ∧
    (1024 * 1024 < V.length →
      WalEntry.deserialize ((WalEntry.mk 0 0 s.sequence K V .put).serialize s.mgr.algo)
          s.mgr.algo = .error .serialization ∧
      ∀ seg, ∀ e ∈ recoverSegment s.mgr.algo seg, ¬(e.key = K ∧ e.value = V)) := by
  refine ⟨?_, ?_, ?_⟩
  · simp [EngineState.put, hfull]
  · intro hkbig
    refine ⟨WalEntry.deserialize_oversized_key ⟨0, 0, s.sequence, K, V, .put⟩
      s.mgr.algo hkbig hk32, ?_⟩
    intro seg e he hkey
    have hb := recoverSegmentLoop_bounds s.mgr.algo seg seg.length 0 (by omega) e he
    have h1 := hb.1
    rw [hkey] at h1
    omega
  · intro hvbig
    refine ⟨WalEntry.deserialize_oversized_value ⟨0, 0, s.sequence, K, V, .put⟩
      s.mgr.algo hvbig hk32 hv32, ?_⟩
    intro seg e he hkv
    have hb := recoverSegmentLoop_bounds s.mgr.algo seg seg.length 0 (by omega) e he
    have h2 := hb.2
    rw [hkv.2] at h2
    omega

/-- A fresh engine's memtable (1 MB bound) is not full after one binding
whose key, value and 40-byte overhead stay under the bound. -/
theorem engineInit_put_not_full (K V : List Nat) (h : K.length + V.length + 40 < 1000000) :
    ((engineInit .CRC32).memtable.put K V (engineInit .CRC32).sequence 0).isFull = false := by
  simp only [Memtable.isFull, Memtable.put, engineInit, Memtable.new]
  rw [decide_eq_false_iff_not]
  omega

/-- Witness for C10 at a fresh engine and a 65,537-byte key. -/
theorem claim_C10_oversized_put_witness :
    ((engineInit .CRC32).memtable.put (List.replicate 65537 1) [2]
        (engineInit .CRC32).sequence 0).isFull = false ∧
    (List.replicate 65537 1).length < 2 ^ 32 ∧ ([2] : List Nat).length < 2 ^ 32 ∧
    (EngineState.put hashZero (engineInit .CRC32) (List.replicate 65537 1) [2] =
        .ok { engineInit .CRC32 with
          sequence := (engineInit .CRC32).sequence + 1
          wal := (engineInit .CRC32).wal ++
            (WalEntry.mk 0 0 (engineInit .CRC32).sequence (List.replicate 65537 1) [2]
              .put).serialize (engineInit .CRC32).mgr.algo
          memtable := (engineInit .CRC32).memtable.put (List.replicate 65537 1) [2]
            (engineInit .CRC32).sequence 0 } ∧
      (64 * 1024 < (List.replicate 65537 1).length →
        WalEntry.deserialize ((WalEntry.mk 0 0 (engineInit .CRC32).sequence
            (List.replicate 65537 1) [2] .put).serialize (engineInit .CRC32).mgr.algo)
            (engineInit .CRC32).mgr.algo = .error .serialization ∧
        ∀ seg, ∀ e ∈ recoverSegment (engineInit .CRC32).mgr.algo seg,
          e.key ≠ List.replicate 65537 1) ∧
      (1024 * 1024 < ([2] : List Nat).length →
        WalEntry.deserialize ((WalEntry.mk 0 0 (engineInit .CRC32).sequence
            (List.replicate 65537 1) [2] .put).serialize (engineInit .CRC32).mgr.algo)
            (engineInit .CRC32).mgr.algo = .error .serialization ∧
        ∀ seg, ∀ e ∈ recoverSegment (engineInit .CRC32).mgr.algo seg,
          ¬(e.key = List.replicate 65537 1 ∧ e.value = [2]))) := by
  have hlen : (List.replicate 65537 1).length = 65537 := List.length_replicate _ _
  have hfull : ((engineInit .CRC32).memtable.put (List.replicate 65537 1) [2]
      (engineInit .CRC32).sequence 0).isFull = false :=
    engineInit_put_not_full _ _ (by rw [hlen]; decide)
  have hk32 : (List.replicate 65537 1).length < 2 ^ 32 := by
    rw [hlen]
    decide
  have hv32 : ([2] : List Nat).length < 2 ^ 32 := by decide
  exact ⟨hfull, hk32, hv32,
    claim_C10_oversized_put_acknowledged_lost_on_recovery hashZero (engineInit .CRC32)
      (List.replicate 65537 1) [2] hfull hk32 hv32⟩

end UringKV
